import Mathlib

/-!
Formal model of the Knowledge-Base Retrieval Engine implemented in
`src/services/rag-service.js` (class `RAGService`), together with theorems
settling the specification's claims about it.

Modelling conventions:
* JavaScript `Map` objects are modelled by `JsMap`, an association list that
  preserves insertion order; `Map.prototype.set` on an existing key replaces
  the value in place, on a fresh key it appends at the end, exactly as in
  ECMAScript.
* JavaScript numbers used as scores are modelled by `ℚ`; counts and sizes by
  `Nat` (the configuration surface documents them as positive integers).
* The JS `x || default` idiom treats `0`, `""` and `false` as falsy; the
  resolution helpers below reproduce that.
* Async methods are modelled as pure state transformers.  Calls to the
  external embedder / vector store are counted where a claim is about the
  number of such calls; writes of `rag-state.json` (`_saveState`) are counted
  where a claim is about persistence.
* Thrown errors are modelled by `Except` with the `RagError` kind matching
  the thrown message (`'查询内容不能为空'` ↦ `INVALID_ARGUMENT`,
  `'RAG 服务未启用'` ↦ `DISABLED`, `'没有激活的知识库'` ↦ `NO_ACTIVE_KB`,
  `'没有可用的知识库'` ↦ `NO_KB_LOADED`,
  `'没有找到相关的知识库内容'` ↦ `NO_RELEVANT_CONTENT`).
-/

/-- Association list preserving insertion order, the model of a JS `Map`
with string keys. -/
abbrev JsMap (α : Type) := List (String × α)

namespace JsMap

/-- `Map.prototype.get`: the value of the first (in a real JS map: unique)
entry with the given key. -/
def get {α : Type} : JsMap α → String → Option α
  | [], _ => none
  | e :: m, k => if e.1 = k then some e.2 else get m k

/-- `Map.prototype.has`. -/
def has {α : Type} (m : JsMap α) (k : String) : Bool :=
  (m.get k).isSome

/-- `Map.prototype.set`: replace in place when the key is present, append
otherwise. -/
def set {α : Type} (m : JsMap α) (k : String) (v : α) : JsMap α :=
  if m.has k then m.map (fun e => if e.1 = k then (k, v) else e)
  else m ++ [(k, v)]

/-- `Map.prototype.delete`: drop the entry with the given key. -/
def delete {α : Type} (m : JsMap α) (k : String) : JsMap α :=
  m.filter (fun e => decide (e.1 ≠ k))

/-- A real JS map never holds two entries with the same key; operations in
this development are used only on such maps. -/
def NodupKeys {α : Type} (m : JsMap α) : Prop :=
  (m.map Prod.fst).Nodup

end JsMap

/-- Optional constructor arguments of `RAGService` (the `config` parameter,
every field possibly absent). -/
structure RAGUserConfig where
  chunkSize : Option Nat := none
  chunkOverlap : Option Nat := none
  maxRetrievedDocs : Option Nat := none
  minRelevanceScore : Option ℚ := none
  useScoreWeighting : Option Bool := none
  weightingMethod : Option String := none
  maxRetries : Option Nat := none
  retryDelay : Option Nat := none
  debug : Option Bool := none

/-- The resolved `this.config` object of `RAGService`. -/
structure RAGConfig where
  chunkSize : Nat
  chunkOverlap : Nat
  maxRetrievedDocs : Nat
  minRelevanceScore : ℚ
  useScoreWeighting : Bool
  weightingMethod : String
  maxRetries : Nat
  retryDelay : Nat
  debug : Bool
deriving DecidableEq

/-- JS `v || d` for an optionally supplied number: `undefined` and `0` both
fall back to the default. -/
def orDefaultNat (v : Option Nat) (d : Nat) : Nat :=
  match v with
  | none => d
  | some x => if x = 0 then d else x

/-- JS `v || d` for an optionally supplied numeric score (`0` is falsy). -/
def orDefaultQ (v : Option ℚ) (d : ℚ) : ℚ :=
  match v with
  | none => d
  | some x => if x = 0 then d else x

/-- JS `v || d` for an optionally supplied string (`""` is falsy). -/
def orDefaultStr (v : Option String) (d : String) : String :=
  match v with
  | none => d
  | some x => if x = "" then d else x

/-- JS `v || d` for an optionally supplied boolean (`false` is falsy). -/
def orDefaultBool (v : Option Bool) (d : Bool) : Bool :=
  match v with
  | none => d
  | some x => if x = false then d else x

/-- JS `v ?? d` (nullish coalescing). -/
def orNullish (v : Option Bool) (d : Bool) : Bool :=
  v.getD d

/-- Resolution of `this.config` in the `RAGService` constructor
(`rag-service.js`, lines 15-34). -/
def RAGService.mkConfig (config : RAGUserConfig) : RAGConfig :=
  { chunkSize := orDefaultNat config.chunkSize 1000
    chunkOverlap := orDefaultNat config.chunkOverlap 200
    maxRetrievedDocs := orDefaultNat config.maxRetrievedDocs 5
    minRelevanceScore := orDefaultQ config.minRelevanceScore (9/10)
    useScoreWeighting := orNullish config.useScoreWeighting true
    weightingMethod := orDefaultStr config.weightingMethod "linear"
    maxRetries := orDefaultNat config.maxRetries 3
    retryDelay := orDefaultNat config.retryDelay 5000
    debug := orDefaultBool config.debug false }

/-- One stored chunk of a vector store (`MemoryVectorStore.memoryVectors`
entry): page content plus its embedding vector. -/
structure Chunk where
  pageContent : String
  embedding : List ℚ
deriving DecidableEq

/-- One knowledge-base entry as stored in `userKnowledgeBases` /
`systemKnowledgeBases`: `{store, path, active}`. -/
structure KBEntry where
  store : List Chunk
  path : String
  active : Bool
deriving DecidableEq

/-- Mutable state of a `RAGService` instance (the fields of `this` that the
claims are about). -/
structure RAGState where
  userKnowledgeBases : JsMap KBEntry
  systemKnowledgeBases : JsMap KBEntry
  systemKnowledgeBasesLoaded : Bool
  currentKnowledgeBase : Option String
  enabled : Bool
  mode : String
deriving DecidableEq

/-- Error kinds thrown by the engine (see the header for the mapping to the
thrown JS messages). -/
inductive RagError where
  | INVALID_ARGUMENT
  | DISABLED
  | NO_ACTIVE_KB
  | NO_KB_LOADED
  | NO_RELEVANT_CONTENT
  | UNSUPPORTED_MODE
deriving DecidableEq

/-- One match of a query result (`{content, score, knowledgeBase}`). -/
structure Match where
  content : String
  score : ℚ
  knowledgeBase : String
deriving DecidableEq

/-- Query result (`{documents, metadata.matchCount}`; the formatted context
string repeats `documents` verbatim and is not modelled). -/
structure QueryResult where
  documents : List Match
  matchCount : Nat
deriving DecidableEq

/-- Insertion step of a stable sort by descending key: the new element is
placed after every element whose key is at least as large. -/
def insertDescBy {α : Type} (key : α → ℚ) (m : α) : List α → List α
  | [] => [m]
  | x :: xs => if key x < key m then m :: x :: xs else x :: insertDescBy key m xs

/-- Stable sort by descending key (ties keep the input order).  This models
the ECMAScript stable `Array.prototype.sort` with comparator
`(a, b) => b.key - a.key`, as used in `multiSearch`
(`.sort((a, b) => b.score - a.score)`). -/
def sortDescBy {α : Type} (key : α → ℚ) (l : List α) : List α :=
  l.foldl (fun acc m => insertDescBy key m acc) []

/-- JS `String.prototype.trim()`: the characters of the string with leading
and trailing whitespace stripped (implemented over the character list so that
concrete instances evaluate inside the kernel). -/
def jsTrim (s : String) : List Char :=
  ((s.data.dropWhile Char.isWhitespace).reverse.dropWhile Char.isWhitespace).reverse

/-- Dot product of two embedding vectors (`Σ aᵢ·bᵢ`, zero-padded at the
shorter end). -/
def dotQ : List ℚ → List ℚ → ℚ
  | a :: as, b :: bs => a * b + dotQ as bs
  | _, _ => 0

/-- Modelled from the spec: the vector store consumed by `rag-service.js` is
the external `MemoryVectorStore` of langchain, whose code is not part of this
repository.  It realizes the spec's Vector Index (§4.2):
`similaritySearchWithScore(query, k)` embeds the query, scores every stored
chunk, sorts by descending score and returns the best `k` pairs
`(pageContent, score)`.  Per the spec's design notes (§9) the source's store
returns the raw cosine similarity; embeddings are unit-normalized (§4.2,
§4.4), so the raw cosine is the dot product of the query and chunk
embeddings. -/
def similaritySearchWithScore (store : List Chunk) (queryVec : List ℚ) (k : Nat) :
    List (String × ℚ) :=
  (sortDescBy Prod.snd (store.map (fun c => (c.pageContent, dotQ queryVec c.embedding)))).take k

/-- `RAGService._getMergedKnowledgeBases` (lines 261-276): a fresh map filled
with the system entries first, then the user entries (a user entry with the
same name overwrites the system entry's value, keeping its position). -/
def getMergedKnowledgeBases (st : RAGState) : JsMap KBEntry :=
  st.userKnowledgeBases.foldl (fun acc e => acc.set e.1 e.2)
    (st.systemKnowledgeBases.foldl (fun acc e => acc.set e.1 e.2) [])

/-- `RAGService._getKnowledgeBase` (lines 278-282): user entry first, then
system entry. -/
def getKnowledgeBase (st : RAGState) (name : String) : Option KBEntry :=
  match st.userKnowledgeBases.get name with
  | some kb => some kb
  | none => st.systemKnowledgeBases.get name

/-- One element of the list returned by `listKnowledgeBases`. -/
structure KBInfo where
  name : String
  path : String
  active : Bool
deriving DecidableEq

/-- `RAGService.listKnowledgeBases` (lines 284-298). -/
def listKnowledgeBases (st : RAGState) : List KBInfo :=
  (getMergedKnowledgeBases st).map (fun e =>
    { name := e.1, path := e.2.path
      active := e.2.active || decide (st.currentKnowledgeBase = some e.1) })

/-- The object returned by `getStatus`. -/
structure RAGStatus where
  isInitialized : Bool
  currentKnowledgeBase : String
  documentCount : Nat
  chunkSize : Nat
  chunkOverlap : Nat
  mode : String
  enabled : Bool
deriving DecidableEq

/-- `RAGService.getStatus` (lines 331-352).  The method is not a pure read:
when `currentKnowledgeBase` names a knowledge base missing from both maps it
is reset to `null` before the report is built, so the new state is returned
alongside the report. -/
def getStatus (cfg : RAGConfig) (st : RAGState) : RAGState × RAGStatus :=
  let kbs := getMergedKnowledgeBases st
  let docCount := kbs.foldl (fun total e => total + e.2.store.length) 0
  let st1 :=
    match st.currentKnowledgeBase with
    | some n =>
      if (getKnowledgeBase st n).isNone then { st with currentKnowledgeBase := none } else st
    | none => st
  (st1,
    { isInitialized := decide (0 < kbs.length)
      currentKnowledgeBase := st1.currentKnowledgeBase.getD "无"
      documentCount := docCount
      chunkSize := cfg.chunkSize
      chunkOverlap := cfg.chunkOverlap
      mode := st1.mode
      enabled := st1.enabled })

/-- The object returned by `getKnowledgeBaseStatus`. -/
structure KBStatusReport where
  currentKnowledgeBase : String
  loadedKnowledgeBases : List String
  isInitialized : Bool
  mode : String
  enabled : Bool
deriving DecidableEq

/-- `RAGService.getKnowledgeBaseStatus` (lines 354-371); like `getStatus` it
resets a dangling `currentKnowledgeBase` to `null`. -/
def getKnowledgeBaseStatus (st : RAGState) : RAGState × KBStatusReport :=
  let allKbs := (getMergedKnowledgeBases st).map Prod.fst
  let st1 :=
    match st.currentKnowledgeBase with
    | some n =>
      if (getKnowledgeBase st n).isNone then { st with currentKnowledgeBase := none } else st
    | none => st
  (st1,
    { currentKnowledgeBase := st1.currentKnowledgeBase.getD "无"
      loadedKnowledgeBases := allKbs
      isInitialized := decide (0 < allKbs.length)
      mode := st1.mode
      enabled := st1.enabled })

/-- In-place mutation of the knowledge-base object returned by
`_getKnowledgeBase(name)` (user entry first, system entry second); a miss
mutates nothing. -/
def updateKB (st : RAGState) (name : String) (f : KBEntry → KBEntry) : RAGState :=
  match st.userKnowledgeBases.get name with
  | some kb => { st with userKnowledgeBases := st.userKnowledgeBases.set name (f kb) }
  | none =>
    match st.systemKnowledgeBases.get name with
    | some kb => { st with systemKnowledgeBases := st.systemKnowledgeBases.set name (f kb) }
    | none => st

/-- `RAGService.switchKnowledgeBase` (lines 515-555), returning the new
state, the success flag and the number of `_saveState` calls performed. -/
def switchKnowledgeBase (st : RAGState) (name : String) : RAGState × Bool × Nat :=
  if (getKnowledgeBase st name).isNone then (st, false, 0)
  else
    let st1 :=
      match st.currentKnowledgeBase with
      | some cur => updateKB st cur (fun kb => { kb with active := false })
      | none => st
    let st2 := updateKB st1 name (fun kb => { kb with active := true })
    ({ st2 with currentKnowledgeBase := some name }, true, 1)

/-- `RAGService.removeKnowledgeBase` (lines 557-595), returning the new
state, the success flag and the number of `_saveState` calls performed. -/
def removeKnowledgeBase (st : RAGState) (name : String) : RAGState × Bool × Nat :=
  if (getKnowledgeBase st name).isNone then (st, false, 0)
  else
    let st1 :=
      if st.currentKnowledgeBase = some name then { st with currentKnowledgeBase := none }
      else st
    let st2 :=
      if st1.userKnowledgeBases.has name then
        { st1 with userKnowledgeBases := st1.userKnowledgeBases.delete name }
      else if st1.systemKnowledgeBases.has name then
        { st1 with systemKnowledgeBases := st1.systemKnowledgeBases.delete name }
      else st1
    (st2, true, 1)

/-- Auxiliary character-list splitter (the accumulator holds the current
segment reversed). -/
def splitOnCharAux (sep : Char) : List Char → List Char → List (List Char)
  | [], acc => [acc.reverse]
  | c :: cs, acc =>
    if c = sep then acc.reverse :: splitOnCharAux sep cs []
    else splitOnCharAux sep cs (c :: acc)

/-- Split a character list at every occurrence of `sep` (like
`String.prototype.split`, implemented structurally so that concrete
instances evaluate inside the kernel). -/
def splitOnChar (sep : Char) (l : List Char) : List (List Char) :=
  splitOnCharAux sep l []

/-- Node's `path.basename(p, path.extname(p))`: the final path segment with
its (last-dot) extension removed; a leading dot alone is not an extension. -/
def basenameNoExt (p : String) : String :=
  let base := (splitOnChar '/' p.data).getLastD []
  let pieces := splitOnChar '.' base
  match pieces with
  | [] => String.mk base
  | [_] => String.mk base
  | _ =>
    if base.headD ' ' = '.' ∧ pieces.length = 2 then String.mk base
    else String.mk (List.intercalate ['.'] pieces.dropLast)

/-- Node's `path.basename(file, '.txt')`: the final path segment with a
trailing `.txt` (exact case) removed. -/
def basenameTxt (file : String) : String :=
  let base := (splitOnChar '/' file.data).getLastD []
  if ['.', 't', 'x', 't'].isSuffixOf base then String.mk (base.take (base.length - 4))
  else String.mk base

/-- Outcome of the external side of an ingestion (`fs.access`, `readFile`,
splitter and embedder): whether it succeeded, and the chunks it produced. -/
structure IngestEnv where
  fileOk : Bool
  chunks : List Chunk

/-- `RAGService.addKnowledgeBase` (lines 598-667), returning the new state,
the success flag and the number of `_saveState` calls performed.  Any
filesystem / splitter / embedder failure is caught and leaves the state
untouched (`env.fileOk = false`). -/
def addKnowledgeBase (st : RAGState) (filePath : String) (env : IngestEnv) :
    RAGState × Bool × Nat :=
  if env.fileOk = false then (st, false, 0)
  else
    let name := basenameNoExt filePath
    if (getKnowledgeBase st name).isSome then (st, false, 0)
    else
      let st1 := { st with
        userKnowledgeBases := st.userKnowledgeBases.set name
          { store := env.chunks, path := filePath, active := false } }
      if (getMergedKnowledgeBases st1).length = 1 then
        let r := switchKnowledgeBase st1 name
        (r.1, true, r.2.2 + 1)
      else (st1, true, 1)

/-- Filesystem contents seen by `_loadSystemKnowledgeBases`: whether the
knowledge-base directory exists, the files `readdir` lists (in directory
order), and the chunks ingestion produces per file. -/
structure LoaderEnv where
  dirExists : Bool
  files : List String
  build : String → List Chunk

/-- `RAGService._loadSystemKnowledgeBases` (lines 104-205), returning the new
state and the number of `_saveState` calls performed.  An absent directory is
created and the load completes with nothing ingested; `.txt` files (matched
case-insensitively) are ingested under their basename minus `.txt`, skipping
names already present in either map; afterwards, if the merged view is
non-empty and no knowledge base is active, the first merged entry is
auto-activated through `switchKnowledgeBase`, which persists state. -/
def loadSystemKnowledgeBases (env : LoaderEnv) (st : RAGState) : RAGState × Nat :=
  if st.systemKnowledgeBasesLoaded then (st, 0)
  else if env.dirExists = false then
    ({ st with systemKnowledgeBasesLoaded := true }, 0)
  else
    let txtFiles := env.files.filter (fun f =>
      ['.', 't', 'x', 't'].isSuffixOf (f.data.map Char.toLower))
    let st1 := txtFiles.foldl (fun acc file =>
      let name := basenameTxt file
      if (acc.userKnowledgeBases.get name).isSome then acc
      else if (acc.systemKnowledgeBases.get name).isSome then acc
      else { acc with
        systemKnowledgeBases := acc.systemKnowledgeBases.set name
          { store := env.build file, path := file, active := false } }) st
    let allKbs := getMergedKnowledgeBases st1
    let r :=
      if 0 < allKbs.length ∧ st1.currentKnowledgeBase = none then
        let first := match allKbs with | e :: _ => e.1 | [] => ""
        let s := switchKnowledgeBase st1 first
        (s.1, s.2.2)
      else (st1, 0)
    ({ r.1 with systemKnowledgeBasesLoaded := true }, r.2)

/-- The `mode` setter (lines 212-235), returning the new state and the number
of `_saveState` calls, or an error for an invalid mode.  When the new mode is
`'multi'` and the system knowledge bases are not loaded yet, the setter
returns the lazy-load promise directly and never reaches its own
`_saveState()` call. -/
def setMode (env : LoaderEnv) (st : RAGState) (newMode : String) :
    Except String (RAGState × Nat) :=
  if newMode ≠ "single" ∧ newMode ≠ "multi" then
    Except.error "无效的 RAG 模式。支持的模式: single, multi"
  else
    let st1 := { st with mode := newMode }
    if newMode = "multi" ∧ st1.systemKnowledgeBasesLoaded = false then
      Except.ok (loadSystemKnowledgeBases env st1)
    else Except.ok (st1, 1)

/-- Per-knowledge-base result lists built inside `multiSearch` (lines
452-479): for every name of the merged view, the store's top-k results with
the below-threshold matches dropped and the source name attached.  The query
embedding is a parameter (`embedQuery`), standing for the external embedder:
each store search embeds the message once. -/
def multiKbResults (cfg : RAGConfig) (st : RAGState) (embedQuery : String → List ℚ)
    (message : String) : List (List Match) :=
  ((getMergedKnowledgeBases st).map Prod.fst).map (fun kbName =>
    match getKnowledgeBase st kbName with
    | none => []
    | some kb =>
      ((similaritySearchWithScore kb.store (embedQuery message) cfg.maxRetrievedDocs).filter
          (fun r => decide (cfg.minRelevanceScore ≤ r.2))).map
        (fun r => ({ content := r.1, score := r.2, knowledgeBase := kbName } : Match)))

/-- `RAGService.multiSearch` (lines 437-513), returning the result (or the
thrown error) together with the number of store searches performed — each of
which invokes the embedder once on the message. -/
def multiSearch (cfg : RAGConfig) (st : RAGState) (embedQuery : String → List ℚ)
    (message : String) : Except RagError QueryResult × Nat :=
  if st.enabled = false then (Except.error RagError.DISABLED, 0)
  else
    let activeKbs := (getMergedKnowledgeBases st).map Prod.fst
    if activeKbs.length = 0 then (Except.error RagError.NO_KB_LOADED, 0)
    else
      let results := multiKbResults cfg st embedQuery message
      let mergedResults := (sortDescBy Match.score results.flatten).take cfg.maxRetrievedDocs
      if mergedResults.length = 0 then
        (Except.error RagError.NO_RELEVANT_CONTENT, activeKbs.length)
      else
        (Except.ok { documents := mergedResults, matchCount := mergedResults.length },
          activeKbs.length)

/-- `RAGService.processMessage` (lines 374-434), returning the result (or
the thrown error) together with the number of store searches performed —
each of which invokes the embedder once on the message. -/
def processMessage (cfg : RAGConfig) (st : RAGState) (embedQuery : String → List ℚ)
    (message : String) (optionsMode : Option String) : Except RagError QueryResult × Nat :=
  if (jsTrim message).length = 0 then (Except.error RagError.INVALID_ARGUMENT, 0)
  else if st.enabled = false then (Except.error RagError.DISABLED, 0)
  else
    let mode := optionsMode.getD st.mode
    if mode = "single" then
      match st.currentKnowledgeBase with
      | none => (Except.error RagError.NO_ACTIVE_KB, 0)
      | some cur =>
        match getKnowledgeBase st cur with
        | none => (Except.error RagError.NO_ACTIVE_KB, 0)
        | some kb =>
          let results :=
            similaritySearchWithScore kb.store (embedQuery message) cfg.maxRetrievedDocs
          let relevantDocs :=
            (results.filter (fun r => decide (cfg.minRelevanceScore ≤ r.2))).map
              (fun r => ({ content := r.1, score := r.2, knowledgeBase := cur } : Match))
          if relevantDocs.length = 0 then (Except.error RagError.NO_RELEVANT_CONTENT, 1)
          else (Except.ok { documents := relevantDocs, matchCount := relevantDocs.length }, 1)
    else if mode = "multi" then multiSearch cfg st embedQuery message
    else (Except.error RagError.UNSUPPORTED_MODE, 0)


/-- Configuration used by the concrete scenarios below: constructor defaults
except `minRelevanceScore = 1/2`. -/
def cfgHalf : RAGConfig := RAGService.mkConfig { minRelevanceScore := some (1/2) }

/-- Knowledge base holding one chunk with unit embedding `[3/5, 4/5]`. -/
def kbAgent : KBEntry :=
  { store := [{ pageContent := "agents plan and act", embedding := [3/5, 4/5] }]
    path := "docs/agent.txt"
    active := true }

/-- Engine state with the single user knowledge base `agent` active. -/
def stSingle : RAGState :=
  { userKnowledgeBases := [("agent", kbAgent)]
    systemKnowledgeBases := []
    systemKnowledgeBasesLoaded := false
    currentKnowledgeBase := some "agent"
    enabled := true
    mode := "single" }

/-- The same state with the engine disabled. -/
def stSingleOff : RAGState := { stSingle with enabled := false }

/-- Query embedding used by the concrete scenarios: every message embeds to
the unit vector `[1, 0]`. -/
def embedOne : String → List ℚ := fun _ => [1, 0]

/-- System knowledge base `b` of the multi-mode scenario. -/
def kbB : KBEntry :=
  { store := [{ pageContent := "docB", embedding := [9/10, 0] }]
    path := "docs/b.txt"
    active := false }

/-- System knowledge base `a` of the multi-mode scenario. -/
def kbA : KBEntry :=
  { store := [{ pageContent := "docA", embedding := [9/10, 0] }]
    path := "docs/a.txt"
    active := false }

/-- Multi-mode engine state whose system map holds `b` before `a` (the
directory-scan insertion order), with no user knowledge bases. -/
def stMulti : RAGState :=
  { userKnowledgeBases := []
    systemKnowledgeBases := [("b", kbB), ("a", kbA)]
    systemKnowledgeBasesLoaded := true
    currentKnowledgeBase := none
    enabled := true
    mode := "multi" }

/-- Freshly constructed engine state: empty registry, defaults. -/
def stFresh : RAGState :=
  { userKnowledgeBases := []
    systemKnowledgeBases := []
    systemKnowledgeBasesLoaded := false
    currentKnowledgeBase := none
    enabled := true
    mode := "single" }

/-- Loader environment for an absent knowledge-base directory. -/
def envNoDir : LoaderEnv := { dirExists := false, files := [], build := fun _ => [] }

/-- Ingestion environment for a readable file producing no chunks. -/
def envNote : IngestEnv := { fileOk := true, chunks := [] }

/-- Engine state whose active name dangles (no such knowledge base). -/
def stGhost : RAGState := { stFresh with currentKnowledgeBase := some "ghost" }

/-- User entry shadowing the system entry `dup`. -/
def kbUser : KBEntry := { store := [], path := "user/dup.txt", active := false }

/-- System entry shadowed by the user entry `dup`. -/
def kbSys : KBEntry := { store := [], path := "docs/dup.txt", active := false }

/-- Engine state in which the name `dup` is present in both maps. -/
def stShadow : RAGState :=
  { userKnowledgeBases := [("dup", kbUser)]
    systemKnowledgeBases := [("dup", kbSys)]
    systemKnowledgeBasesLoaded := true
    currentKnowledgeBase := none
    enabled := true
    mode := "single" }

/-- Expected result of the concrete SINGLE query against `kbAgent`: the raw
cosine `3/5` of the unit embeddings is returned as the score. -/
def resSingle : QueryResult :=
  { documents :=
      [{ content := "agents plan and act", score := 3/5, knowledgeBase := "agent" }]
    matchCount := 1 }

/-- Expected result of the concrete MULTI query over the stores `b` and
`a`: both matches score `9/10`, and the `b` match keeps its concatenation
position ahead of the `a` match. -/
def resMulti : QueryResult :=
  { documents := [{ content := "docB", score := 9/10, knowledgeBase := "b" },
      { content := "docA", score := 9/10, knowledgeBase := "a" }]
    matchCount := 2 }

/-- System knowledge base `m1` of the unit-embedding MULTI scenario: its
single chunk embeds to the unit vector `[3/5, 4/5]` (raw cosine `3/5`
against the query `[1, 0]`). -/
def kbM1 : KBEntry :=
  { store := [{ pageContent := "d1", embedding := [3/5, 4/5] }]
    path := "docs/m1.txt"
    active := false }

/-- System knowledge base `m2` of the unit-embedding MULTI scenario: its
single chunk embeds to the unit vector `[4/5, 3/5]` (raw cosine `4/5`
against the query `[1, 0]`). -/
def kbM2 : KBEntry :=
  { store := [{ pageContent := "d2", embedding := [4/5, 3/5] }]
    path := "docs/m2.txt"
    active := false }

/-- Multi-mode engine state over the unit-embedding stores `m1` and `m2`. -/
def stMulti2 : RAGState :=
  { userKnowledgeBases := []
    systemKnowledgeBases := [("m1", kbM1), ("m2", kbM2)]
    systemKnowledgeBasesLoaded := true
    currentKnowledgeBase := none
    enabled := true
    mode := "multi" }

/-- Expected result of the MULTI query over `m1` and `m2`: the raw cosines
`4/5` and `3/5` of the unit embeddings are returned as the scores, in
descending order. -/
def resMulti2 : QueryResult :=
  { documents := [{ content := "d2", score := 4/5, knowledgeBase := "m2" },
      { content := "d1", score := 3/5, knowledgeBase := "m1" }]
    matchCount := 2 }

/-- Lexicographic comparison of character lists, used to state the claimed
tie-break order on knowledge-base names. -/
def lexLeChars : List Char → List Char → Bool
  | [], _ => true
  | _ :: _, [] => false
  | c :: cs, d :: ds => if c < d then true else if d < c then false else lexLeChars cs ds

/-- Modelled from the spec's words (§4.7 step 4): the claimed MULTI-mode
ordering — non-increasing score with ties broken lexicographically by
`kb_name` (ascending); the further chunk-id tie-break applies only to
matches of one knowledge base and is not reached in the scenarios below. -/
def claimedTieBreakOrdered (l : List Match) : Prop :=
  l.Pairwise (fun a b => b.score < a.score ∨
    (a.score = b.score ∧ lexLeChars a.knowledgeBase.data b.knowledgeBase.data = true))

namespace JsMap

theorem get_eq_none_iff {α : Type} (m : JsMap α) (k : String) :
    get m k = none ↔ k ∉ m.map Prod.fst := by
  induction m with
  | nil => simp [get]
  | cons e m ih =>
    by_cases h : e.1 = k
    · simp [get, h]
    · simp [get, h, ih, Ne.symm h]

theorem get_replace_self {α : Type} (m : JsMap α) (k : String) (v : α) :
    get (m.map (fun e => if e.1 = k then (k, v) else e)) k =
      (get m k).map (fun _ => v) := by
  induction m with
  | nil => simp [get]
  | cons e m ih =>
    by_cases h : e.1 = k
    · simp [get, h]
    · simp [get, h, ih]

theorem get_replace_ne {α : Type} (m : JsMap α) (k : String) (v : α) (n : String)
    (h : n ≠ k) :
    get (m.map (fun e => if e.1 = k then (k, v) else e)) n = get m n := by
  induction m with
  | nil => simp [get]
  | cons e m ih =>
    by_cases hek : e.1 = k
    · simp [get, hek, Ne.symm h, ih]
    · by_cases hen : e.1 = n
      · simp [get, hek, hen, h]
      · simp [get, hek, hen, ih]

theorem get_append_single_self {α : Type} (m : JsMap α) (k : String) (v : α)
    (h : get m k = none) : get (m ++ [(k, v)]) k = some v := by
  induction m with
  | nil => simp [get]
  | cons e m ih =>
    by_cases he : e.1 = k
    · simp [get, he] at h
    · simp only [get, he, if_false] at h
      simpa [get, he] using ih h

theorem get_append_single_ne {α : Type} (m : JsMap α) (k : String) (v : α) (n : String)
    (h : n ≠ k) : get (m ++ [(k, v)]) n = get m n := by
  induction m with
  | nil => simp [get, Ne.symm h]
  | cons e m ih =>
    by_cases hen : e.1 = n
    · simp [get, hen]
    · simpa [get, hen] using ih

theorem get_set_self {α : Type} (m : JsMap α) (k : String) (v : α) :
    get (set m k v) k = some v := by
  unfold set has
  by_cases hs : (get m k).isSome
  · rcases Option.isSome_iff_exists.mp hs with ⟨w, hw⟩
    simp [hs, get_replace_self, hw]
  · simp only [hs, if_false]
    exact get_append_single_self m k v (Option.not_isSome_iff_eq_none.mp hs)

theorem get_set_ne {α : Type} (m : JsMap α) (k : String) (v : α) (n : String)
    (h : n ≠ k) : get (set m k v) n = get m n := by
  unfold set has
  by_cases hs : (get m k).isSome
  · simp [hs, get_replace_ne m k v n h]
  · simp only [hs, if_false]
    exact get_append_single_ne m k v n h

theorem set_of_get_none {α : Type} (m : JsMap α) (k : String) (v : α)
    (h : get m k = none) : set m k v = m ++ [(k, v)] := by
  unfold set has
  simp [h]

theorem delete_of_get_none {α : Type} (m : JsMap α) (k : String)
    (h : get m k = none) : delete m k = m := by
  have hmem := (get_eq_none_iff m k).mp h
  unfold delete
  apply List.filter_eq_self.mpr
  intro e he
  simp only [decide_eq_true_eq]
  intro hek
  exact hmem (hek ▸ List.mem_map_of_mem Prod.fst he)

theorem delete_append_single {α : Type} (m : JsMap α) (k : String) (v : α)
    (h : get m k = none) : delete (m ++ [(k, v)]) k = m := by
  unfold delete
  rw [List.filter_append]
  have h1 : (([(k, v)] : JsMap α).filter (fun e => decide (e.1 ≠ k))) = [] := by simp
  rw [h1, List.append_nil]
  exact delete_of_get_none m k h

theorem get_delete_self {α : Type} (m : JsMap α) (k : String) :
    get (delete m k) k = none := by
  induction m with
  | nil => rfl
  | cons e m ih =>
    by_cases he : e.1 = k
    · simpa [delete, List.filter_cons, he] using ih
    · simpa [delete, List.filter_cons, he, get] using ih

theorem get_delete_ne {α : Type} (m : JsMap α) (k : String) (n : String) (h : n ≠ k) :
    get (delete m k) n = get m n := by
  induction m with
  | nil => rfl
  | cons e m ih =>
    by_cases hek : e.1 = k
    · have hen : ¬ e.1 = n := fun hen => h (hen ▸ hek ▸ rfl)
      simpa [delete, List.filter_cons, hek, hen, get, Ne.symm h] using ih
    · by_cases hen : e.1 = n
      · simp [delete, List.filter_cons, hek, hen, get, h]
      · simpa [delete, List.filter_cons, hek, hen, get] using ih

end JsMap

namespace JsMap

theorem keys_set {α : Type} (m : JsMap α) (k : String) (v : α) :
    (set m k v).map Prod.fst =
      if (get m k).isSome then m.map Prod.fst else m.map Prod.fst ++ [k] := by
  unfold set has
  by_cases hs : (get m k).isSome
  · simp only [hs, if_true, List.map_map]
    apply List.map_congr_left
    intro e he
    by_cases hek : e.1 = k <;> simp [hek]
  · simp [hs]

theorem get_foldl_set {α : Type} (l : List (String × α)) (m : JsMap α) (k : String)
    (hl : NodupKeys l) :
    get (l.foldl (fun acc e => set acc e.1 e.2) m) k =
      match get l k with
      | some v => some v
      | none => get m k := by
  induction l generalizing m with
  | nil => simp [get]
  | cons e t ih =>
    have hnd : NodupKeys t := (List.nodup_cons.mp hl).2
    have hne : e.1 ∉ t.map Prod.fst := (List.nodup_cons.mp hl).1
    simp only [List.foldl_cons]
    rw [ih (set m e.1 e.2) hnd]
    by_cases hek : e.1 = k
    · have ht : get t k = none := by
        rw [get_eq_none_iff]
        exact fun hk => hne (hek ▸ hk)
      rw [ht, hek, get_set_self]
      simp [get, hek]
    · rw [get_set_ne m e.1 e.2 k (Ne.symm hek)]
      simp [get, hek]

theorem keys_foldl_set {α : Type} (l : List (String × α)) (m : JsMap α)
    (hl : NodupKeys l) :
    (l.foldl (fun acc e => set acc e.1 e.2) m).map Prod.fst =
      m.map Prod.fst ++ (l.map Prod.fst).filter (fun n => !(get m n).isSome) := by
  induction l generalizing m with
  | nil => simp
  | cons e t ih =>
    have hnd : NodupKeys t := (List.nodup_cons.mp hl).2
    have hne : e.1 ∉ t.map Prod.fst := (List.nodup_cons.mp hl).1
    simp only [List.foldl_cons, List.map_cons, List.filter_cons]
    rw [ih (set m e.1 e.2) hnd, keys_set]
    have hfil : (t.map Prod.fst).filter (fun n => !(get (set m e.1 e.2) n).isSome) =
        (t.map Prod.fst).filter (fun n => !(get m n).isSome) := by
      apply List.filter_congr
      intro n hn
      have hnk : n ≠ e.1 := fun hnk => hne (hnk ▸ hn)
      rw [get_set_ne m e.1 e.2 n hnk]
    rw [hfil]
    by_cases hs : (get m e.1).isSome
    · simp [hs]
    · simp [hs, List.append_assoc]


end JsMap
theorem merged_get (st : RAGState) (hu : st.userKnowledgeBases.NodupKeys)
    (hs : st.systemKnowledgeBases.NodupKeys) (n : String) :
    JsMap.get (getMergedKnowledgeBases st) n = getKnowledgeBase st n := by
  unfold getMergedKnowledgeBases getKnowledgeBase
  rw [JsMap.get_foldl_set _ _ _ hu, JsMap.get_foldl_set _ _ _ hs]
  cases JsMap.get st.userKnowledgeBases n with
  | some v => rfl
  | none =>
    cases JsMap.get st.systemKnowledgeBases n with
    | some v => rfl
    | none => rfl

theorem merged_keys (st : RAGState) (hu : st.userKnowledgeBases.NodupKeys)
    (hs : st.systemKnowledgeBases.NodupKeys) :
    (getMergedKnowledgeBases st).map Prod.fst =
      st.systemKnowledgeBases.map Prod.fst ++
        (st.userKnowledgeBases.map Prod.fst).filter
          (fun n => !(JsMap.get st.systemKnowledgeBases n).isSome) := by
  unfold getMergedKnowledgeBases
  rw [JsMap.keys_foldl_set _ _ hu, JsMap.keys_foldl_set _ _ hs]
  simp only [List.map_nil, List.nil_append]
  have hft : (st.systemKnowledgeBases.map Prod.fst).filter
      (fun n => !(JsMap.get ([] : JsMap KBEntry) n).isSome) =
      st.systemKnowledgeBases.map Prod.fst := by
    apply List.filter_eq_self.mpr
    intro a _
    simp [JsMap.get]
  rw [hft]
  congr 1
  apply List.filter_congr
  intro n _
  rw [JsMap.get_foldl_set _ _ _ hs]
  cases JsMap.get st.systemKnowledgeBases n with
  | some v => simp
  | none => simp [JsMap.get]

theorem merged_nodupKeys (st : RAGState) (hu : st.userKnowledgeBases.NodupKeys)
    (hs : st.systemKnowledgeBases.NodupKeys) :
    (getMergedKnowledgeBases st).NodupKeys := by
  unfold JsMap.NodupKeys
  rw [merged_keys st hu hs]
  rw [List.nodup_append]
  refine ⟨hs, (List.Nodup.filter _ hu), ?_⟩
  intro n hn hn2
  rcases List.mem_filter.mp hn2 with ⟨hmem, hpred⟩
  have : JsMap.get st.systemKnowledgeBases n = none := by
    cases hgs : JsMap.get st.systemKnowledgeBases n with
    | none => rfl
    | some v => rw [hgs] at hpred; simp at hpred
  exact (JsMap.get_eq_none_iff _ _).mp this hn

theorem insertDescBy_perm {α : Type} (key : α → ℚ) (m : α) (l : List α) :
    List.Perm (insertDescBy key m l) (m :: l) := by
  induction l with
  | nil => exact List.Perm.refl _
  | cons x xs ih =>
    unfold insertDescBy
    by_cases h : key x < key m
    · simp [h]
    · simp only [h, if_false]
      exact (List.Perm.cons x ih).trans (List.Perm.swap m x xs)

theorem foldl_insertDescBy_perm {α : Type} (key : α → ℚ) (l acc : List α) :
    List.Perm (l.foldl (fun acc m => insertDescBy key m acc) acc) (acc ++ l) := by
  induction l generalizing acc with
  | nil => simp
  | cons m t ih =>
    simp only [List.foldl_cons]
    refine (ih (insertDescBy key m acc)).trans ?_
    refine (List.Perm.append_right t (insertDescBy_perm key m acc)).trans ?_
    exact (List.perm_middle).symm

theorem sortDescBy_perm {α : Type} (key : α → ℚ) (l : List α) :
    List.Perm (sortDescBy key l) l := by
  simpa using foldl_insertDescBy_perm key l []

theorem mem_insertDescBy {α : Type} (key : α → ℚ) (m : α) (l : List α) (x : α) :
    x ∈ insertDescBy key m l ↔ x = m ∨ x ∈ l := by
  rw [(insertDescBy_perm key m l).mem_iff]
  simp

theorem insertDescBy_pairwise {α : Type} (key : α → ℚ) (m : α) (l : List α)
    (h : l.Pairwise (fun a b => key b ≤ key a)) :
    (insertDescBy key m l).Pairwise (fun a b => key b ≤ key a) := by
  induction l with
  | nil => simp [insertDescBy]
  | cons x xs ih =>
    rcases List.pairwise_cons.mp h with ⟨hx, hxs⟩
    unfold insertDescBy
    by_cases hlt : key x < key m
    · simp only [hlt, if_true]
      refine List.pairwise_cons.mpr ⟨?_, h⟩
      intro b hb
      rcases List.mem_cons.mp hb with hb | hb
      · exact le_of_lt (hb ▸ hlt)
      · exact le_trans (hx b hb) (le_of_lt hlt)
    · simp only [hlt, if_false]
      refine List.pairwise_cons.mpr ⟨?_, ih hxs⟩
      intro b hb
      rcases (mem_insertDescBy key m xs b).mp hb with hb | hb
      · exact hb ▸ (le_of_not_lt hlt)
      · exact hx b hb

theorem sortDescBy_pairwise_aux {α : Type} (key : α → ℚ) (l acc : List α)
    (hacc : acc.Pairwise (fun a b => key b ≤ key a)) :
    (l.foldl (fun acc m => insertDescBy key m acc) acc).Pairwise
      (fun a b => key b ≤ key a) := by
  induction l generalizing acc with
  | nil => exact hacc
  | cons m t ih =>
    simp only [List.foldl_cons]
    exact ih (insertDescBy key m acc) (insertDescBy_pairwise key m acc hacc)

theorem sortDescBy_pairwise {α : Type} (key : α → ℚ) (l : List α) :
    (sortDescBy key l).Pairwise (fun a b => key b ≤ key a) :=
  sortDescBy_pairwise_aux key l [] (List.Pairwise.nil)

theorem insertDescBy_filter_ne {α : Type} (key : α → ℚ) (m : α) (l : List α) (s : ℚ)
    (h : key m ≠ s) :
    (insertDescBy key m l).filter (fun x => decide (key x = s)) =
      l.filter (fun x => decide (key x = s)) := by
  induction l with
  | nil => simp [insertDescBy, h]
  | cons x xs ih =>
    unfold insertDescBy
    by_cases hlt : key x < key m
    · simp [hlt, List.filter_cons, h]
    · simp only [hlt, if_false]
      rw [List.filter_cons, List.filter_cons, ih]

theorem insertDescBy_filter_self {α : Type} (key : α → ℚ) (m : α) (l : List α) (s : ℚ)
    (h : key m = s) (hsort : l.Pairwise (fun a b => key b ≤ key a)) :
    (insertDescBy key m l).filter (fun x => decide (key x = s)) =
      l.filter (fun x => decide (key x = s)) ++ [m] := by
  induction l with
  | nil => simp [insertDescBy, h]
  | cons x xs ih =>
    rcases List.pairwise_cons.mp hsort with ⟨hx, hxs⟩
    unfold insertDescBy
    by_cases hlt : key x < key m
    · simp only [hlt, if_true]
      have hnil : (x :: xs).filter (fun x => decide (key x = s)) = [] := by
        apply List.filter_eq_nil_iff.mpr
        intro b hb
        have hble : key b ≤ key x := by
          rcases List.mem_cons.mp hb with hb | hb
          · exact hb ▸ le_refl _
          · exact hx b hb
        have : key b < s := lt_of_le_of_lt hble (h ▸ hlt)
        simp [ne_of_lt this]
      have hxne : ¬ (key x = s) := ne_of_lt (lt_of_lt_of_le (h ▸ hlt) (le_refl _))
      simp [List.filter_cons, h, hxne, hnil]
    · simp only [hlt, if_false]
      rw [List.filter_cons, List.filter_cons, ih hxs]
      by_cases hxs2 : key x = s <;> simp [hxs2]

theorem sortDescBy_filter_aux {α : Type} (key : α → ℚ) (l acc : List α) (s : ℚ)
    (hacc : acc.Pairwise (fun a b => key b ≤ key a)) :
    (l.foldl (fun acc m => insertDescBy key m acc) acc).filter
        (fun x => decide (key x = s)) =
      acc.filter (fun x => decide (key x = s)) ++
        l.filter (fun x => decide (key x = s)) := by
  induction l generalizing acc with
  | nil => simp
  | cons m t ih =>
    simp only [List.foldl_cons]
    rw [ih (insertDescBy key m acc) (insertDescBy_pairwise key m acc hacc)]
    by_cases hm : key m = s
    · rw [insertDescBy_filter_self key m acc s hm hacc]
      rw [List.filter_cons]
      simp [hm]
    · rw [insertDescBy_filter_ne key m acc s hm]
      rw [List.filter_cons]
      simp [hm]

theorem sortDescBy_filter {α : Type} (key : α → ℚ) (l : List α) (s : ℚ) :
    (sortDescBy key l).filter (fun x => decide (key x = s)) =
      l.filter (fun x => decide (key x = s)) := by
  simpa using sortDescBy_filter_aux key l [] s (List.Pairwise.nil)

theorem dotQ_self_nonneg (a : List ℚ) : 0 ≤ dotQ a a := by
  induction a with
  | nil => simp [dotQ]
  | cons x xs ih =>
    unfold dotQ
    nlinarith [mul_self_nonneg x]

theorem dotQ_comm (a b : List ℚ) : dotQ a b = dotQ b a := by
  induction a generalizing b with
  | nil => cases b <;> simp [dotQ]
  | cons x xs ih =>
    cases b with
    | nil => simp [dotQ]
    | cons y ys => simp [dotQ, ih, mul_comm]

theorem dotQ_sub_expand (a b : List ℚ) (h : a.length = b.length) :
    dotQ (List.zipWith (fun u v => u - v) a b) (List.zipWith (fun u v => u - v) a b) =
      dotQ a a - 2 * dotQ a b + dotQ b b := by
  induction a generalizing b with
  | nil =>
    cases b with
    | nil => simp [dotQ]
    | cons y ys => simp at h
  | cons x xs ih =>
    cases b with
    | nil => simp at h
    | cons y ys =>
      simp only [List.length_cons, Nat.succ_inj] at h
      simp only [List.zipWith_cons_cons, dotQ]
      rw [ih ys h]
      ring

theorem dotQ_le_one (a b : List ℚ) (ha : dotQ a a = 1) (hb : dotQ b b = 1)
    (h : a.length = b.length) : dotQ a b ≤ 1 := by
  have h0 := dotQ_self_nonneg (List.zipWith (fun u v => u - v) a b)
  rw [dotQ_sub_expand a b h, ha, hb] at h0
  linarith

/-- C1 (counterexample): a `RAGService` constructed without a
`minRelevanceScore` option resolves it to `0.9`, which differs from the
claimed default `0.7`. -/
theorem c1_counterexample :
    (RAGService.mkConfig {}).minRelevanceScore = 9/10 ∧ ((9 : ℚ)/10) ≠ 7/10 := by
  constructor
  · rfl
  · norm_num

/-- C1 (amended): the default value of the `min_relevance_score`
configuration option, used when the caller does not supply one at
construction, is `0.9`. -/
theorem c1_default_minRelevanceScore (c : RAGUserConfig)
    (h : c.minRelevanceScore = none) :
    (RAGService.mkConfig c).minRelevanceScore = 9/10 := by
  simp [RAGService.mkConfig, orDefaultQ, h]

/-- C1 (witness): the amended default theorem applied to the empty
constructor argument. -/
theorem c1_default_minRelevanceScore_witness :
    (RAGUserConfig.minRelevanceScore {} = none) ∧
      (RAGService.mkConfig {}).minRelevanceScore = 9/10 :=
  ⟨rfl, c1_default_minRelevanceScore {} rfl⟩

/-- C3 (amended): for every query text that is non-empty after trimming,
a disabled engine fails the query with `DISABLED` and performs zero store
searches — hence zero embedder invocations. -/
theorem c3_disabled_before_embedder (cfg : RAGConfig) (st : RAGState)
    (embedQuery : String → List ℚ) (message : String) (optionsMode : Option String)
    (hmsg : (jsTrim message).length ≠ 0) (hoff : st.enabled = false) :
    processMessage cfg st embedQuery message optionsMode =
      (Except.error RagError.DISABLED, 0) := by
  unfold processMessage
  simp [hmsg, hoff]

/-- C3 (witness): the disabled-engine theorem applied to the concrete
disabled state and the message `"hello"`. -/
theorem c3_disabled_before_embedder_witness :
    ((jsTrim "hello").length ≠ 0) ∧ stSingleOff.enabled = false ∧
      processMessage cfgHalf stSingleOff embedOne "hello" none =
        (Except.error RagError.DISABLED, 0) :=
  ⟨by decide, rfl,
    c3_disabled_before_embedder cfgHalf stSingleOff embedOne "hello" none (by decide) rfl⟩

/-- C3 (counterexample): the claim quantifies over every non-empty query
text, but the whitespace-only text `" "` is non-empty and still fails with
`INVALID_ARGUMENT` rather than `DISABLED` on a disabled engine, because the
emptiness check (`message.trim().length === 0`) runs first. -/
theorem c3_counterexample :
    (" ".length ≠ 0) ∧ stSingleOff.enabled = false ∧
      processMessage cfgHalf stSingleOff embedOne " " none =
        (Except.error RagError.INVALID_ARGUMENT, 0) ∧
      RagError.INVALID_ARGUMENT ≠ RagError.DISABLED := by
  refine ⟨by decide, rfl, ?_, by decide⟩
  unfold processMessage
  simp +decide [jsTrim]

/-- C7 (code bug): the first `set_mode('multi')` on a fresh engine (system
knowledge bases not yet loaded, knowledge-base directory absent) returns
through the lazy-load branch and performs zero `_saveState` calls, so the
mode change is not persisted. -/
theorem c7_setMode_multi_skips_save :
    setMode envNoDir stFresh "multi" =
      Except.ok ({ stFresh with mode := "multi", systemKnowledgeBasesLoaded := true }, 0) := by
  rfl

/-- C9: the status operations are not pure reads — when the active name
refers to a knowledge base absent from both maps, `getStatus` and
`getKnowledgeBaseStatus` reset it to `null` (mutating the engine state)
before reporting it (as `'无'`). -/
theorem c9_status_resets_dangling_current (cfg : RAGConfig) (st : RAGState) (n : String)
    (hc : st.currentKnowledgeBase = some n) (hm : getKnowledgeBase st n = none) :
    (getStatus cfg st).1.currentKnowledgeBase = none ∧
      (getStatus cfg st).1 ≠ st ∧
      (getStatus cfg st).2.currentKnowledgeBase = "无" ∧
      (getKnowledgeBaseStatus st).1.currentKnowledgeBase = none ∧
      (getKnowledgeBaseStatus st).1 ≠ st ∧
      (getKnowledgeBaseStatus st).2.currentKnowledgeBase = "无" := by
  have h1 : (getStatus cfg st).1 = { st with currentKnowledgeBase := none } := by
    simp [getStatus, hc, hm]
  have h2 : (getKnowledgeBaseStatus st).1 = { st with currentKnowledgeBase := none } := by
    simp [getKnowledgeBaseStatus, hc, hm]
  have hne : ({ st with currentKnowledgeBase := none } : RAGState) ≠ st := by
    intro he
    have := congrArg RAGState.currentKnowledgeBase he
    simp [hc] at this
  refine ⟨by rw [h1], by rw [h1]; exact hne, ?_, by rw [h2], by rw [h2]; exact hne, ?_⟩
  · simp [getStatus, hc, hm]
  · simp [getKnowledgeBaseStatus, hc, hm]

/-- C9 (witness): the dangling-name theorem applied to the concrete state
whose active name `ghost` is in neither map. -/
theorem c9_status_resets_dangling_current_witness :
    (stGhost.currentKnowledgeBase = some "ghost") ∧
      getKnowledgeBase stGhost "ghost" = none ∧
      (getStatus cfgHalf stGhost).1.currentKnowledgeBase = none ∧
      (getStatus cfgHalf stGhost).1 ≠ stGhost :=
  ⟨rfl, rfl,
    (c9_status_resets_dangling_current cfgHalf stGhost "ghost" rfl rfl).1,
    (c9_status_resets_dangling_current cfgHalf stGhost "ghost" rfl rfl).2.1⟩

theorem nodupKeys_delete {α : Type} (m : JsMap α) (k : String)
    (h : m.NodupKeys) : (m.delete k).NodupKeys := by
  unfold JsMap.NodupKeys JsMap.delete at *
  exact List.Nodup.sublist (List.Sublist.map Prod.fst (List.filter_sublist m)) h

/-- C10: removing a name that is present in both maps deletes only the user
entry and leaves the system map untouched, so the merged view still contains
the name, now resolving to the system entry. -/
theorem c10_remove_unshadows_system (st : RAGState) (name : String) (kbS : KBEntry)
    (hu : (JsMap.get st.userKnowledgeBases name).isSome = true)
    (hsys : JsMap.get st.systemKnowledgeBases name = some kbS)
    (hnu : st.userKnowledgeBases.NodupKeys)
    (hns : st.systemKnowledgeBases.NodupKeys) :
    ((removeKnowledgeBase st name).2.1 = true) ∧
      (removeKnowledgeBase st name).1.systemKnowledgeBases = st.systemKnowledgeBases ∧
      JsMap.get (removeKnowledgeBase st name).1.userKnowledgeBases name = none ∧
      JsMap.get (getMergedKnowledgeBases (removeKnowledgeBase st name).1) name = some kbS := by
  rcases Option.isSome_iff_exists.mp hu with ⟨w, hw⟩
  have hkb : (getKnowledgeBase st name).isNone = false := by
    unfold getKnowledgeBase
    rw [hw]
    rfl
  have hres : (removeKnowledgeBase st name).1 =
      { st with
        currentKnowledgeBase :=
          if st.currentKnowledgeBase = some name then none else st.currentKnowledgeBase
        userKnowledgeBases := st.userKnowledgeBases.delete name } := by
    unfold removeKnowledgeBase
    rw [hkb]
    by_cases hcur : st.currentKnowledgeBase = some name <;>
      simp [hcur, JsMap.has, hw]
  have hflag : (removeKnowledgeBase st name).2.1 = true := by
    unfold removeKnowledgeBase
    rw [hkb]
    simp
  refine ⟨hflag, by rw [hres], by rw [hres]; exact JsMap.get_delete_self _ _, ?_⟩
  rw [hres]
  have hnu2 : (st.userKnowledgeBases.delete name).NodupKeys := nodupKeys_delete _ _ hnu
  refine (merged_get
      { st with
        currentKnowledgeBase :=
          if st.currentKnowledgeBase = some name then none else st.currentKnowledgeBase
        userKnowledgeBases := st.userKnowledgeBases.delete name }
      hnu2 hns name).trans ?_
  unfold getKnowledgeBase
  simp [JsMap.get_delete_self, hsys]

/-- C10 (witness): the theorem applied to the concrete state in which `dup`
is present in both maps. -/
theorem c10_remove_unshadows_system_witness :
    ((JsMap.get stShadow.userKnowledgeBases "dup").isSome = true) ∧
      JsMap.get stShadow.systemKnowledgeBases "dup" = some kbSys ∧
      (removeKnowledgeBase stShadow "dup").1.systemKnowledgeBases =
        stShadow.systemKnowledgeBases ∧
      JsMap.get (getMergedKnowledgeBases (removeKnowledgeBase stShadow "dup").1) "dup" =
        some kbSys :=
  ⟨rfl, rfl,
    (c10_remove_unshadows_system stShadow "dup" kbSys rfl rfl
      (by unfold JsMap.NodupKeys; decide) (by unfold JsMap.NodupKeys; decide)).2.1,
    (c10_remove_unshadows_system stShadow "dup" kbSys rfl rfl
      (by unfold JsMap.NodupKeys; decide) (by unfold JsMap.NodupKeys; decide)).2.2.2⟩

theorem nodupKeys_append_single {α : Type} (m : JsMap α) (k : String) (v : α)
    (h : m.NodupKeys) (hg : JsMap.get m k = none) : (m ++ [(k, v)]).NodupKeys := by
  unfold JsMap.NodupKeys at *
  rw [List.map_append, List.nodup_append]
  refine ⟨h, List.nodup_singleton _, ?_⟩
  intro a ha hb
  simp only [List.map_cons, List.map_nil, List.mem_singleton] at hb
  exact (JsMap.get_eq_none_iff m k).mp hg (hb ▸ ha)

/-- C8: given that `name = basename(p)` minus extension is absent from both
maps, `add_kb(p)` followed by `remove_kb(name)` restores both registry maps
exactly (the name is absent again and every other entry is unchanged),
whether or not the ingestion succeeds and whether or not the added knowledge
base was auto-activated. -/
theorem c8_add_remove_roundtrip (st : RAGState) (p : String) (env : IngestEnv)
    (hnu : st.userKnowledgeBases.NodupKeys) (hns : st.systemKnowledgeBases.NodupKeys)
    (h : getKnowledgeBase st (basenameNoExt p) = none) :
    ((removeKnowledgeBase (addKnowledgeBase st p env).1 (basenameNoExt p)).1.userKnowledgeBases
        = st.userKnowledgeBases) ∧
      ((removeKnowledgeBase (addKnowledgeBase st p env).1 (basenameNoExt p)).1.systemKnowledgeBases
        = st.systemKnowledgeBases) := by
  have hug : JsMap.get st.userKnowledgeBases (basenameNoExt p) = none := by
    unfold getKnowledgeBase at h
    cases hu : JsMap.get st.userKnowledgeBases (basenameNoExt p) with
    | none => rfl
    | some v => rw [hu] at h; exact absurd h (by simp)
  have hsg : JsMap.get st.systemKnowledgeBases (basenameNoExt p) = none := by
    unfold getKnowledgeBase at h
    rw [hug] at h
    exact h
  by_cases hok : env.fileOk
  case neg =>
    have hadd : (addKnowledgeBase st p env).1 = st := by
      unfold addKnowledgeBase
      simp [hok]
    rw [hadd]
    have hrem : (removeKnowledgeBase st (basenameNoExt p)).1 = st := by
      unfold removeKnowledgeBase
      simp [h]
    rw [hrem]
    exact ⟨rfl, rfl⟩
  case pos =>
    set name := basenameNoExt p with hname
    set kbe : KBEntry := { store := env.chunks, path := p, active := false } with hkbe
    have hset : JsMap.set st.userKnowledgeBases name kbe =
        st.userKnowledgeBases ++ [(name, kbe)] :=
      JsMap.set_of_get_none _ _ _ hug
    have hGA : JsMap.get (st.userKnowledgeBases ++ [(name, kbe)]) name = some kbe :=
      JsMap.get_append_single_self _ _ _ hug
    have hDA : JsMap.delete (st.userKnowledgeBases ++ [(name, kbe)]) name =
        st.userKnowledgeBases :=
      JsMap.delete_append_single _ _ _ hug
    have hadd_eq : addKnowledgeBase st p env =
        if (getMergedKnowledgeBases
            { st with userKnowledgeBases := st.userKnowledgeBases ++ [(name, kbe)] }).length = 1
        then
          ((switchKnowledgeBase
              { st with userKnowledgeBases := st.userKnowledgeBases ++ [(name, kbe)] } name).1,
            true,
            (switchKnowledgeBase
              { st with userKnowledgeBases := st.userKnowledgeBases ++ [(name, kbe)] } name).2.2
              + 1)
        else ({ st with userKnowledgeBases := st.userKnowledgeBases ++ [(name, kbe)] },
          true, 1) := by
      unfold addKnowledgeBase
      simp [hok, h, hset]
    by_cases hlen : (getMergedKnowledgeBases
        { st with userKnowledgeBases := st.userKnowledgeBases ++ [(name, kbe)] }).length = 1
    case neg =>
      rw [hadd_eq, if_neg hlen]
      constructor
      · by_cases hcur : st.currentKnowledgeBase = some name <;>
          simp [removeKnowledgeBase, getKnowledgeBase, hcur, JsMap.has, hGA, hDA]
      · by_cases hcur : st.currentKnowledgeBase = some name <;>
          simp [removeKnowledgeBase, getKnowledgeBase, hcur, JsMap.has, hGA, hDA]
    case pos =>
      have hnuA : (st.userKnowledgeBases ++ [(name, kbe)]).NodupKeys :=
        nodupKeys_append_single _ _ _ hnu hug
      have hkeys := merged_keys
        { st with userKnowledgeBases := st.userKnowledgeBases ++ [(name, kbe)] } hnuA hns
      have hlen2 : ((getMergedKnowledgeBases
          { st with userKnowledgeBases := st.userKnowledgeBases ++ [(name, kbe)] }).map
            Prod.fst).length = 1 := by
        rw [List.length_map]
        exact hlen
      rw [hkeys] at hlen2
      simp only [List.map_append, List.filter_append, List.map_cons, List.map_nil,
        List.filter_cons, List.filter_nil] at hlen2
      rw [hsg] at hlen2
      simp only [Option.isSome_none, Bool.not_false, if_pos, List.length_append,
        List.length_cons, List.length_nil] at hlen2
      have hsys0 : st.systemKnowledgeBases = [] := by
        have h0 : (st.systemKnowledgeBases.map Prod.fst).length = 0 := by omega
        exact List.map_eq_nil_iff.mp (List.length_eq_zero.mp h0)
      have huser0 : st.userKnowledgeBases = [] := by
        have hflen : ((st.userKnowledgeBases.map Prod.fst).filter
            (fun n => !(JsMap.get st.systemKnowledgeBases n).isSome)).length = 0 := by omega
        rw [hsys0] at hflen
        have hself : (st.userKnowledgeBases.map Prod.fst).filter
            (fun n => !(JsMap.get ([] : JsMap KBEntry) n).isSome) =
            st.userKnowledgeBases.map Prod.fst := by
          apply List.filter_eq_self.mpr
          intro a _
          rfl
        rw [hself] at hflen
        exact List.map_eq_nil_iff.mp (List.length_eq_zero.mp hflen)
      rw [hadd_eq, if_pos hlen, huser0, hsys0]
      cases hcur : st.currentKnowledgeBase with
      | none =>
        simp [switchKnowledgeBase, updateKB, getKnowledgeBase, removeKnowledgeBase,
          JsMap.get, JsMap.set, JsMap.has, JsMap.delete, List.filter, hcur]
      | some cur =>
        by_cases hcn : name = cur
        · simp [switchKnowledgeBase, updateKB, getKnowledgeBase, removeKnowledgeBase,
            JsMap.get, JsMap.set, JsMap.has, JsMap.delete, List.filter, hcur, hcn]
        · simp [switchKnowledgeBase, updateKB, getKnowledgeBase, removeKnowledgeBase,
            JsMap.get, JsMap.set, JsMap.has, JsMap.delete, List.filter, hcur, hcn]

/-- C8 (witness): the round-trip theorem applied to the concrete single-KB
state, adding and removing `docs/note.txt`. -/
theorem c8_add_remove_roundtrip_witness :
    (getKnowledgeBase stSingle (basenameNoExt "docs/note.txt") = none) ∧
      ((removeKnowledgeBase (addKnowledgeBase stSingle "docs/note.txt" envNote).1
          (basenameNoExt "docs/note.txt")).1.userKnowledgeBases
        = stSingle.userKnowledgeBases) ∧
      ((removeKnowledgeBase (addKnowledgeBase stSingle "docs/note.txt" envNote).1
          (basenameNoExt "docs/note.txt")).1.systemKnowledgeBases
        = stSingle.systemKnowledgeBases) :=
  ⟨by decide,
    (c8_add_remove_roundtrip stSingle "docs/note.txt" envNote
      (by unfold JsMap.NodupKeys; decide) (by unfold JsMap.NodupKeys; decide) (by decide)).1,
    (c8_add_remove_roundtrip stSingle "docs/note.txt" envNote
      (by unfold JsMap.NodupKeys; decide) (by unfold JsMap.NodupKeys; decide) (by decide)).2⟩

/-- C6 (counterexample): with the system map holding `b` before `a` (the
directory-scan insertion order) and no user entries, `list_kbs` returns `b`
before `a`; the claimed ordering (system entries alphabetical) would return
`a` before `b`. -/
theorem c6_counterexample :
    ((listKnowledgeBases stMulti).map KBInfo.name = ["b", "a"]) ∧
      (["b", "a"] : List String) ≠ ["a", "b"] := by
  constructor
  · decide
  · decide

/-- C6 (amended): `list_kbs` returns the merged view in insertion order —
the system entries first, in system-map insertion order, then the user
entries whose names do not occur in the system map, in user-map insertion
order; every name appears exactly once, and a name present in the user map
resolves to the user entry (a user entry replaces a same-name system entry's
value in place). -/
theorem c6_insertion_order_listing (st : RAGState)
    (hnu : st.userKnowledgeBases.NodupKeys) (hns : st.systemKnowledgeBases.NodupKeys) :
    ((listKnowledgeBases st).map KBInfo.name =
        st.systemKnowledgeBases.map Prod.fst ++
          (st.userKnowledgeBases.map Prod.fst).filter
            (fun n => !(JsMap.get st.systemKnowledgeBases n).isSome)) ∧
      ((listKnowledgeBases st).map KBInfo.name).Nodup ∧
      (∀ n kb, JsMap.get st.userKnowledgeBases n = some kb →
        JsMap.get (getMergedKnowledgeBases st) n = some kb) := by
  have hmap : (listKnowledgeBases st).map KBInfo.name =
      (getMergedKnowledgeBases st).map Prod.fst := by
    unfold listKnowledgeBases
    rw [List.map_map]
    rfl
  refine ⟨by rw [hmap]; exact merged_keys st hnu hns, ?_, ?_⟩
  · rw [hmap]
    exact merged_nodupKeys st hnu hns
  · intro n kb hn
    rw [merged_get st hnu hns n]
    unfold getKnowledgeBase
    rw [hn]

/-- C6 (witness): the insertion-order theorem applied to the concrete state
whose system map holds `b` before `a`. -/
theorem c6_insertion_order_listing_witness :
    ((listKnowledgeBases stMulti).map KBInfo.name =
        stMulti.systemKnowledgeBases.map Prod.fst ++
          (stMulti.userKnowledgeBases.map Prod.fst).filter
            (fun n => !(JsMap.get stMulti.systemKnowledgeBases n).isSome)) ∧
      ((listKnowledgeBases stMulti).map KBInfo.name).Nodup :=
  ⟨(c6_insertion_order_listing stMulti (by unfold JsMap.NodupKeys; decide)
      (by unfold JsMap.NodupKeys; decide)).1,
    (c6_insertion_order_listing stMulti (by unfold JsMap.NodupKeys; decide)
      (by unfold JsMap.NodupKeys; decide)).2.1⟩

theorem processMessage_single_eq (cfg : RAGConfig) (st : RAGState)
    (embedQuery : String → List ℚ) (message : String) (optionsMode : Option String)
    (cur : String) (kb : KBEntry)
    (hmsg : (jsTrim message).length ≠ 0) (hen : st.enabled = true)
    (hmode : optionsMode.getD st.mode = "single")
    (hcur : st.currentKnowledgeBase = some cur)
    (hkb : getKnowledgeBase st cur = some kb) :
    processMessage cfg st embedQuery message optionsMode =
      (if ((similaritySearchWithScore kb.store (embedQuery message)
              cfg.maxRetrievedDocs).filter
            (fun r => decide (cfg.minRelevanceScore ≤ r.2))).length = 0
       then (Except.error RagError.NO_RELEVANT_CONTENT, 1)
       else (Except.ok
          { documents := ((similaritySearchWithScore kb.store (embedQuery message)
                cfg.maxRetrievedDocs).filter
              (fun r => decide (cfg.minRelevanceScore ≤ r.2))).map
              (fun r => ({ content := r.1, score := r.2, knowledgeBase := cur } : Match)),
            matchCount := ((similaritySearchWithScore kb.store (embedQuery message)
                cfg.maxRetrievedDocs).filter
              (fun r => decide (cfg.minRelevanceScore ≤ r.2))).length },
          1)) := by
  unfold processMessage
  simp only [hmode, hcur, hkb, hen, if_neg hmsg]
  simp only [List.length_map]
  simp

theorem multiSearch_eq (cfg : RAGConfig) (st : RAGState)
    (embedQuery : String → List ℚ) (message : String)
    (hen : st.enabled = true) (hlen0 : 0 < (getMergedKnowledgeBases st).length) :
    multiSearch cfg st embedQuery message =
      (if ((sortDescBy Match.score (multiKbResults cfg st embedQuery message).flatten).take
            cfg.maxRetrievedDocs).length = 0
       then (Except.error RagError.NO_RELEVANT_CONTENT,
         ((getMergedKnowledgeBases st).map Prod.fst).length)
       else (Except.ok
          { documents := (sortDescBy Match.score
                (multiKbResults cfg st embedQuery message).flatten).take cfg.maxRetrievedDocs,
            matchCount := ((sortDescBy Match.score
                (multiKbResults cfg st embedQuery message).flatten).take
                cfg.maxRetrievedDocs).length },
         ((getMergedKnowledgeBases st).map Prod.fst).length)) := by
  unfold multiSearch
  rw [hen]
  rw [if_neg (by simp)]
  rw [if_neg (by rw [List.length_map]; omega)]

theorem multiKbResults_flatten_eq_nil_iff (cfg : RAGConfig) (st : RAGState)
    (embedQuery : String → List ℚ) (message : String) :
    (multiKbResults cfg st embedQuery message).flatten = [] ↔
      ∀ kbName ∈ (getMergedKnowledgeBases st).map Prod.fst, ∀ kb,
        getKnowledgeBase st kbName = some kb →
        ∀ r ∈ similaritySearchWithScore kb.store (embedQuery message) cfg.maxRetrievedDocs,
          r.2 < cfg.minRelevanceScore := by
  rw [List.flatten_eq_nil_iff]
  unfold multiKbResults
  constructor
  · intro hall kbName hmem kb hkb r hr
    have hl := hall _ (List.mem_map_of_mem _ hmem)
    rw [hkb] at hl
    have hf := List.map_eq_nil_iff.mp hl
    have := List.filter_eq_nil_iff.mp hf r hr
    simpa using this
  · intro hall l hl
    rcases List.mem_map.mp hl with ⟨kbName, hmem, rfl⟩
    cases hkb : getKnowledgeBase st kbName with
    | none => simp [hkb]
    | some kb =>
      simp only [hkb]
      rw [List.map_eq_nil_iff]
      apply List.filter_eq_nil_iff.mpr
      intro r hr
      simpa using not_le.mpr (hall kbName hmem kb hkb r hr)

theorem mem_multiKbResults_flatten (cfg : RAGConfig) (st : RAGState)
    (embedQuery : String → List ℚ) (message : String) (m : Match)
    (hm : m ∈ (multiKbResults cfg st embedQuery message).flatten) :
    cfg.minRelevanceScore ≤ m.score := by
  rcases List.mem_flatten.mp hm with ⟨l, hl, hml⟩
  unfold multiKbResults at hl
  rcases List.mem_map.mp hl with ⟨kbName, hmem, rfl⟩
  cases hkb : getKnowledgeBase st kbName with
  | none => rw [hkb] at hml; simp at hml
  | some kb =>
    rw [hkb] at hml
    rcases List.mem_map.mp hml with ⟨r, hr, rfl⟩
    have := List.of_mem_filter hr
    simpa using this

/-- C4: a query that passes the validation, enabled and knowledge-base
availability preconditions fails with `NO_RELEVANT_CONTENT` exactly when no
retrieved chunk scores at least `min_relevance_score` (over the active
store's results in SINGLE mode, over every store's results in MULTI mode),
and on success every returned match scores at least the threshold. -/
theorem c4_no_relevant_content_iff (cfg : RAGConfig) (st : RAGState)
    (embedQuery : String → List ℚ) (message : String) (optionsMode : Option String)
    (hmsg : (jsTrim message).length ≠ 0) (hen : st.enabled = true)
    (hk : 0 < cfg.maxRetrievedDocs) :
    (∀ cur kb, optionsMode.getD st.mode = "single" →
        st.currentKnowledgeBase = some cur → getKnowledgeBase st cur = some kb →
        (((processMessage cfg st embedQuery message optionsMode).1 =
            Except.error RagError.NO_RELEVANT_CONTENT) ↔
          ∀ r ∈ similaritySearchWithScore kb.store (embedQuery message) cfg.maxRetrievedDocs,
            r.2 < cfg.minRelevanceScore)) ∧
      (optionsMode.getD st.mode = "multi" →
        0 < (getMergedKnowledgeBases st).length →
        (((processMessage cfg st embedQuery message optionsMode).1 =
            Except.error RagError.NO_RELEVANT_CONTENT) ↔
          ∀ kbName ∈ (getMergedKnowledgeBases st).map Prod.fst, ∀ kb,
            getKnowledgeBase st kbName = some kb →
            ∀ r ∈ similaritySearchWithScore kb.store (embedQuery message) cfg.maxRetrievedDocs,
              r.2 < cfg.minRelevanceScore)) ∧
      (∀ R, (processMessage cfg st embedQuery message optionsMode).1 = Except.ok R →
        ∀ m ∈ R.documents, cfg.minRelevanceScore ≤ m.score) := by
  have hmsg2 : ¬ (jsTrim message = []) := fun hh => hmsg (by rw [hh]; rfl)
  have hdisp : optionsMode.getD st.mode = "multi" →
      processMessage cfg st embedQuery message optionsMode =
        multiSearch cfg st embedQuery message := by
    intro hmode
    unfold processMessage
    simp only [hmode, hen, if_neg hmsg]
    simp
  refine ⟨?_, ?_, ?_⟩
  · intro cur kb hmode hcur hkb
    rw [processMessage_single_eq cfg st embedQuery message optionsMode cur kb
      hmsg hen hmode hcur hkb]
    by_cases hrel : ((similaritySearchWithScore kb.store (embedQuery message)
        cfg.maxRetrievedDocs).filter
        (fun r => decide (cfg.minRelevanceScore ≤ r.2))).length = 0
    · rw [if_pos hrel]
      refine iff_of_true rfl ?_
      intro r hr
      have hnil := List.length_eq_zero.mp hrel
      have := List.filter_eq_nil_iff.mp hnil r hr
      simpa using this
    · rw [if_neg hrel]
      refine iff_of_false (by simp) ?_
      intro hall
      apply hrel
      rw [List.length_eq_zero]
      apply List.filter_eq_nil_iff.mpr
      intro r hr
      simpa using not_le.mpr (hall r hr)
  · intro hmode hlen0
    rw [hdisp hmode, multiSearch_eq cfg st embedQuery message hen hlen0]
    by_cases hfl : (multiKbResults cfg st embedQuery message).flatten = []
    · rw [if_pos (by simp [hfl, sortDescBy])]
      exact iff_of_true rfl ((multiKbResults_flatten_eq_nil_iff cfg st embedQuery message).mp hfl)
    · have hlenf : 0 < (multiKbResults cfg st embedQuery message).flatten.length :=
        List.length_pos.mpr hfl
      have hslen : (sortDescBy Match.score
          (multiKbResults cfg st embedQuery message).flatten).length =
          (multiKbResults cfg st embedQuery message).flatten.length :=
        (sortDescBy_perm _ _).length_eq
      rw [if_neg (by rw [List.length_take, hslen]; omega)]
      refine iff_of_false (by simp) ?_
      intro hall
      exact hfl ((multiKbResults_flatten_eq_nil_iff cfg st embedQuery message).mpr hall)
  · intro R hok m hm
    by_cases hsingle : optionsMode.getD st.mode = "single"
    · cases hcuro : st.currentKnowledgeBase with
      | none =>
        unfold processMessage at hok
        simp [hsingle, hcuro, hen, if_neg hmsg, hmsg2] at hok
      | some cur =>
        cases hkbo : getKnowledgeBase st cur with
        | none =>
          unfold processMessage at hok
          simp [hsingle, hcuro, hkbo, hen, if_neg hmsg, hmsg2] at hok
        | some kb =>
          rw [processMessage_single_eq cfg st embedQuery message optionsMode cur kb
            hmsg hen hsingle hcuro hkbo] at hok
          by_cases hrel : ((similaritySearchWithScore kb.store (embedQuery message)
              cfg.maxRetrievedDocs).filter
              (fun r => decide (cfg.minRelevanceScore ≤ r.2))).length = 0
          · rw [if_pos hrel] at hok
            exact absurd hok (by simp)
          · rw [if_neg hrel] at hok
            simp only [Except.ok.injEq] at hok
            rw [← hok] at hm
            simp only [QueryResult.documents] at hm
            rcases List.mem_map.mp hm with ⟨r, hr, rfl⟩
            simpa using List.of_mem_filter hr
    · by_cases hmulti : optionsMode.getD st.mode = "multi"
      · rw [hdisp hmulti] at hok
        by_cases hl0 : (getMergedKnowledgeBases st).length = 0
        · unfold multiSearch at hok
          simp [hen, List.length_map, hl0] at hok
        · have hlen0 : 0 < (getMergedKnowledgeBases st).length := Nat.pos_of_ne_zero hl0
          rw [multiSearch_eq cfg st embedQuery message hen hlen0] at hok
          by_cases hrel : ((sortDescBy Match.score
              (multiKbResults cfg st embedQuery message).flatten).take
              cfg.maxRetrievedDocs).length = 0
          · rw [if_pos hrel] at hok
            exact absurd hok (by simp)
          · rw [if_neg hrel] at hok
            simp only [Except.ok.injEq] at hok
            rw [← hok] at hm
            simp only [QueryResult.documents] at hm
            have hm2 : m ∈ sortDescBy Match.score
                (multiKbResults cfg st embedQuery message).flatten :=
              List.take_subset _ _ hm
            have hm3 : m ∈ (multiKbResults cfg st embedQuery message).flatten :=
              (sortDescBy_perm _ _).mem_iff.mp hm2
            exact mem_multiKbResults_flatten cfg st embedQuery message m hm3
      · unfold processMessage at hok
        simp [hsingle, hmulti, hen, if_neg hmsg, hmsg2] at hok

/-- C4 (witness): the threshold-iff theorem applied to the concrete
single-KB state with threshold `1/2` and the message `"hello"`. -/
theorem c4_no_relevant_content_iff_witness :
    ((jsTrim "hello").length ≠ 0) ∧ stSingle.enabled = true ∧
      0 < cfgHalf.maxRetrievedDocs ∧
      ((∀ cur kb, (none : Option String).getD stSingle.mode = "single" →
          stSingle.currentKnowledgeBase = some cur → getKnowledgeBase stSingle cur = some kb →
          (((processMessage cfgHalf stSingle embedOne "hello" none).1 =
              Except.error RagError.NO_RELEVANT_CONTENT) ↔
            ∀ r ∈ similaritySearchWithScore kb.store (embedOne "hello")
                cfgHalf.maxRetrievedDocs,
              r.2 < cfgHalf.minRelevanceScore)) ∧
        ((none : Option String).getD stSingle.mode = "multi" →
          0 < (getMergedKnowledgeBases stSingle).length →
          (((processMessage cfgHalf stSingle embedOne "hello" none).1 =
              Except.error RagError.NO_RELEVANT_CONTENT) ↔
            ∀ kbName ∈ (getMergedKnowledgeBases stSingle).map Prod.fst, ∀ kb,
              getKnowledgeBase stSingle kbName = some kb →
              ∀ r ∈ similaritySearchWithScore kb.store (embedOne "hello")
                  cfgHalf.maxRetrievedDocs,
                r.2 < cfgHalf.minRelevanceScore)) ∧
        (∀ R, (processMessage cfgHalf stSingle embedOne "hello" none).1 = Except.ok R →
          ∀ m ∈ R.documents, cfgHalf.minRelevanceScore ≤ m.score)) :=
  ⟨by decide, rfl, by decide,
    c4_no_relevant_content_iff cfgHalf stSingle embedOne "hello" none
      (by decide) rfl (by decide)⟩

/-- C5 (amended): a successful MULTI query returns the concatenated
filtered per-store results, stably sorted by non-increasing score (ties keep
the concatenation order, witnessed by the filter-preservation property) and
truncated to `max_retrieved_docs`. -/
theorem c5_stable_sort_truncate (cfg : RAGConfig) (st : RAGState)
    (embedQuery : String → List ℚ) (message : String) (R : QueryResult) (n : Nat)
    (hR : multiSearch cfg st embedQuery message = (Except.ok R, n)) :
    R.documents.Pairwise (fun a b => b.score ≤ a.score) ∧
      R.documents.length ≤ cfg.maxRetrievedDocs ∧
      ∃ L : List Match,
        R.documents = L.take cfg.maxRetrievedDocs ∧
        List.Perm L (multiKbResults cfg st embedQuery message).flatten ∧
        L.Pairwise (fun a b => b.score ≤ a.score) ∧
        ∀ s : ℚ, L.filter (fun m => decide (m.score = s)) =
          ((multiKbResults cfg st embedQuery message).flatten).filter
            (fun m => decide (m.score = s)) := by
  cases hen : st.enabled with
  | false =>
    unfold multiSearch at hR
    simp [hen] at hR
  | true =>
    by_cases hl0 : ((getMergedKnowledgeBases st).map Prod.fst).length = 0
    · unfold multiSearch at hR
      simp [hen, hl0] at hR
    · have hlen0 : 0 < (getMergedKnowledgeBases st).length := by
        rw [List.length_map] at hl0
        omega
      rw [multiSearch_eq cfg st embedQuery message hen hlen0] at hR
      by_cases hrel : ((sortDescBy Match.score
          (multiKbResults cfg st embedQuery message).flatten).take
          cfg.maxRetrievedDocs).length = 0
      · rw [if_pos hrel] at hR
        simp at hR
      · rw [if_neg hrel] at hR
        have hRdoc : R.documents = (sortDescBy Match.score
            (multiKbResults cfg st embedQuery message).flatten).take
            cfg.maxRetrievedDocs := by
          have := congrArg Prod.fst hR
          simp only [Except.ok.injEq] at this
          rw [← this]
        refine ⟨?_, ?_, ?_⟩
        · rw [hRdoc]
          exact (sortDescBy_pairwise Match.score _).sublist (List.take_sublist _ _)
        · rw [hRdoc]
          exact List.length_take_le _ _
        · refine ⟨sortDescBy Match.score
            (multiKbResults cfg st embedQuery message).flatten, hRdoc, ?_, ?_, ?_⟩
          · exact sortDescBy_perm Match.score _
          · exact sortDescBy_pairwise Match.score _
          · intro s
            exact sortDescBy_filter Match.score _ s

/-- C5 (counterexample): with two system stores queried in insertion order
`b`, `a` and equal scores `9/10`, `multiSearch` returns the `b` match before
the `a` match (the stable sort keeps concatenation order), violating the
claimed lexicographic tie-break by `kb_name`, which demands `a` first. -/
theorem c5_counterexample :
    ((multiSearch cfgHalf stMulti embedOne "query").1 = Except.ok
        { documents := [{ content := "docB", score := 9/10, knowledgeBase := "b" },
            { content := "docA", score := 9/10, knowledgeBase := "a" }],
          matchCount := 2 }) ∧
      ¬ claimedTieBreakOrdered
          [{ content := "docB", score := 9/10, knowledgeBase := "b" },
            { content := "docA", score := 9/10, knowledgeBase := "a" }] := by
  constructor
  · norm_num +decide [multiSearch, multiKbResults, getMergedKnowledgeBases, stMulti,
      cfgHalf, kbB, kbA, embedOne, RAGService.mkConfig, orDefaultQ, orDefaultNat,
      orDefaultStr, orDefaultBool, orNullish, getKnowledgeBase, JsMap.get, JsMap.set,
      JsMap.has, similaritySearchWithScore, sortDescBy, insertDescBy, dotQ, List.filter]
  · intro h
    unfold claimedTieBreakOrdered at h
    rcases List.pairwise_cons.mp h with ⟨hx, _⟩
    rcases hx _ (List.mem_singleton.mpr rfl) with hlt | ⟨heq, hlex⟩
    · exact absurd hlt (by norm_num)
    · exact absurd hlex (by decide)

/-- C5 (witness): the stable-sort theorem applied to the concrete MULTI run
over the stores `b` and `a`. -/
theorem c5_stable_sort_truncate_witness :
    (multiSearch cfgHalf stMulti embedOne "query" = (Except.ok resMulti, 2)) ∧
      (resMulti.documents.Pairwise (fun a b => b.score ≤ a.score) ∧
        resMulti.documents.length ≤ cfgHalf.maxRetrievedDocs ∧
        ∃ L : List Match,
          resMulti.documents = L.take cfgHalf.maxRetrievedDocs ∧
          List.Perm L (multiKbResults cfgHalf stMulti embedOne "query").flatten ∧
          L.Pairwise (fun a b => b.score ≤ a.score) ∧
          ∀ s : ℚ, L.filter (fun m => decide (m.score = s)) =
            ((multiKbResults cfgHalf stMulti embedOne "query").flatten).filter
              (fun m => decide (m.score = s))) := by
  have hR : multiSearch cfgHalf stMulti embedOne "query" = (Except.ok resMulti, 2) := by
    norm_num +decide [multiSearch, multiKbResults, getMergedKnowledgeBases, stMulti,
      cfgHalf, kbB, kbA, embedOne, resMulti, RAGService.mkConfig, orDefaultQ, orDefaultNat,
      orDefaultStr, orDefaultBool, orNullish, getKnowledgeBase, JsMap.get, JsMap.set,
      JsMap.has, similaritySearchWithScore, sortDescBy, insertDescBy, dotQ, List.filter]
  exact ⟨hR, c5_stable_sort_truncate cfgHalf stMulti embedOne "query" resMulti 2 hR⟩

theorem mem_of_get_eq_some {α : Type} (m : JsMap α) (k : String) (v : α)
    (h : JsMap.get m k = some v) : (k, v) ∈ m := by
  induction m with
  | nil => simp [JsMap.get] at h
  | cons e m ih =>
    by_cases he : e.1 = k
    · have hv : e.2 = v := by simpa [JsMap.get, he] using h
      exact List.mem_cons.mpr (Or.inl (by rw [← he, ← hv]))
    · simp only [JsMap.get, he, if_false] at h
      exact List.mem_cons_of_mem _ (ih h)

theorem getKnowledgeBase_mem (st : RAGState) (name : String) (kb : KBEntry)
    (h : getKnowledgeBase st name = some kb) :
    (name, kb) ∈ st.userKnowledgeBases ++ st.systemKnowledgeBases := by
  unfold getKnowledgeBase at h
  cases hu : JsMap.get st.userKnowledgeBases name with
  | some v =>
    rw [hu] at h
    have hv : v = kb := Option.some.inj h
    exact List.mem_append_left _ (hv ▸ mem_of_get_eq_some _ _ _ hu)
  | none =>
    rw [hu] at h
    exact List.mem_append_right _ (mem_of_get_eq_some _ _ _ h)

theorem mem_similaritySearch_characterize (store : List Chunk) (qvec : List ℚ)
    (k : Nat) (r : String × ℚ) (hr : r ∈ similaritySearchWithScore store qvec k) :
    ∃ c ∈ store, r.1 = c.pageContent ∧ r.2 = dotQ qvec c.embedding := by
  unfold similaritySearchWithScore at hr
  have hr2 := List.take_subset _ _ hr
  have hr3 := (sortDescBy_perm _ _).mem_iff.mp hr2
  rcases List.mem_map.mp hr3 with ⟨c, hc, hce⟩
  exact ⟨c, hc, by rw [← hce], by rw [← hce]⟩

theorem mem_flatten_characterize (cfg : RAGConfig) (st : RAGState)
    (embedQuery : String → List ℚ) (message : String) (m : Match)
    (hm : m ∈ (multiKbResults cfg st embedQuery message).flatten) :
    cfg.minRelevanceScore ≤ m.score ∧
      ∃ name kb, getKnowledgeBase st name = some kb ∧
        ∃ c ∈ kb.store, m.content = c.pageContent ∧ m.knowledgeBase = name ∧
          m.score = dotQ (embedQuery message) c.embedding := by
  rcases List.mem_flatten.mp hm with ⟨l, hl, hml⟩
  unfold multiKbResults at hl
  rcases List.mem_map.mp hl with ⟨kbName, hmem, rfl⟩
  cases hkb : getKnowledgeBase st kbName with
  | none => rw [hkb] at hml; simp at hml
  | some kb =>
    rw [hkb] at hml
    rcases List.mem_map.mp hml with ⟨r, hr, rfl⟩
    have hthr : cfg.minRelevanceScore ≤ r.2 := by
      simpa using List.of_mem_filter hr
    rcases mem_similaritySearch_characterize kb.store (embedQuery message)
      cfg.maxRetrievedDocs r (List.mem_of_mem_filter hr) with ⟨c, hc, h1, h2⟩
    exact ⟨hthr, kbName, kb, hkb, c, hc, h1, rfl, h2⟩

/-- C2 (amended): in every successful query over unit-normalized embeddings
— whether it went through `processMessage` (SINGLE or MULTI mode) or through
`multiSearch` directly — every returned match carries the raw cosine
similarity of the query embedding and a chunk of the knowledge base it names:
the dot product, passed through from the store with no `(1 + cos θ) / 2`
normalization; and, provided `min_relevance_score ≥ 0`, the score lies in
`[0, 1]` (lower bound from the threshold filter, upper bound by
Cauchy-Schwarz). -/
theorem c2_scores_raw_cosine (cfg : RAGConfig) (st : RAGState)
    (embedQuery : String → List ℚ) (message : String) (optionsMode : Option String)
    (hmin : 0 ≤ cfg.minRelevanceScore)
    (hq : dotQ (embedQuery message) (embedQuery message) = 1)
    (hunit : ∀ e ∈ st.userKnowledgeBases ++ st.systemKnowledgeBases,
      ∀ c ∈ e.2.store, dotQ c.embedding c.embedding = 1 ∧
        c.embedding.length = (embedQuery message).length) :
    (∀ R, (processMessage cfg st embedQuery message optionsMode).1 = Except.ok R →
      ∀ m ∈ R.documents,
        (∃ name kb, getKnowledgeBase st name = some kb ∧
          ∃ c ∈ kb.store, m.content = c.pageContent ∧ m.knowledgeBase = name ∧
            m.score = dotQ (embedQuery message) c.embedding) ∧
        0 ≤ m.score ∧ m.score ≤ 1) ∧
      (∀ R n, multiSearch cfg st embedQuery message = (Except.ok R, n) →
        ∀ m ∈ R.documents,
          (∃ name kb, getKnowledgeBase st name = some kb ∧
            ∃ c ∈ kb.store, m.content = c.pageContent ∧ m.knowledgeBase = name ∧
              m.score = dotQ (embedQuery message) c.embedding) ∧
          0 ≤ m.score ∧ m.score ≤ 1) := by
  have hbounds : ∀ m : Match,
      (∃ name kb, getKnowledgeBase st name = some kb ∧
        ∃ c ∈ kb.store, m.content = c.pageContent ∧ m.knowledgeBase = name ∧
          m.score = dotQ (embedQuery message) c.embedding) →
      cfg.minRelevanceScore ≤ m.score → 0 ≤ m.score ∧ m.score ≤ 1 := by
    rintro m ⟨name, kb, hkb, c, hc, _, _, hsc⟩ hthr
    have hu := hunit (name, kb) (getKnowledgeBase_mem st name kb hkb) c hc
    refine ⟨le_trans hmin hthr, ?_⟩
    rw [hsc]
    exact dotQ_le_one _ _ hq hu.1 hu.2.symm
  have hmultiPart : ∀ R n, multiSearch cfg st embedQuery message = (Except.ok R, n) →
      ∀ m ∈ R.documents,
        (∃ name kb, getKnowledgeBase st name = some kb ∧
          ∃ c ∈ kb.store, m.content = c.pageContent ∧ m.knowledgeBase = name ∧
            m.score = dotQ (embedQuery message) c.embedding) ∧
        0 ≤ m.score ∧ m.score ≤ 1 := by
    intro R n hR m hm
    cases hen : st.enabled with
    | false =>
      unfold multiSearch at hR
      simp [hen] at hR
    | true =>
      by_cases hl0 : ((getMergedKnowledgeBases st).map Prod.fst).length = 0
      · unfold multiSearch at hR
        simp [hen, hl0] at hR
      · have hlen0 : 0 < (getMergedKnowledgeBases st).length := by
          rw [List.length_map] at hl0
          omega
        rw [multiSearch_eq cfg st embedQuery message hen hlen0] at hR
        by_cases hrel : ((sortDescBy Match.score
            (multiKbResults cfg st embedQuery message).flatten).take
            cfg.maxRetrievedDocs).length = 0
        · rw [if_pos hrel] at hR
          simp at hR
        · rw [if_neg hrel] at hR
          have hRdoc : R.documents = (sortDescBy Match.score
              (multiKbResults cfg st embedQuery message).flatten).take
              cfg.maxRetrievedDocs := by
            have := congrArg Prod.fst hR
            simp only [Except.ok.injEq] at this
            rw [← this]
          rw [hRdoc] at hm
          have hm2 := (sortDescBy_perm Match.score _).mem_iff.mp (List.take_subset _ _ hm)
          rcases mem_flatten_characterize cfg st embedQuery message m hm2 with ⟨hthr, hchar⟩
          exact ⟨hchar, hbounds m hchar hthr⟩
  refine ⟨?_, hmultiPart⟩
  intro R hok m hm
  by_cases hmsg : (jsTrim message).length = 0
  · unfold processMessage at hok
    rw [if_pos hmsg] at hok
    exact absurd hok (by simp)
  have hmsg2 : ¬ (jsTrim message = []) := fun hh => hmsg (by rw [hh]; rfl)
  cases hen : st.enabled with
  | false =>
    unfold processMessage at hok
    rw [if_neg hmsg] at hok
    simp [hen] at hok
  | true =>
    by_cases hsingle : optionsMode.getD st.mode = "single"
    · cases hcuro : st.currentKnowledgeBase with
      | none =>
        unfold processMessage at hok
        simp [hsingle, hcuro, hen, if_neg hmsg, hmsg2] at hok
      | some cur =>
        cases hkbo : getKnowledgeBase st cur with
        | none =>
          unfold processMessage at hok
          simp [hsingle, hcuro, hkbo, hen, if_neg hmsg, hmsg2] at hok
        | some kb =>
          rw [processMessage_single_eq cfg st embedQuery message optionsMode cur kb
            hmsg hen hsingle hcuro hkbo] at hok
          by_cases hrel : ((similaritySearchWithScore kb.store (embedQuery message)
              cfg.maxRetrievedDocs).filter
              (fun r => decide (cfg.minRelevanceScore ≤ r.2))).length = 0
          · rw [if_pos hrel] at hok
            exact absurd hok (by simp)
          · rw [if_neg hrel] at hok
            simp only [Except.ok.injEq] at hok
            rw [← hok] at hm
            simp only [QueryResult.documents] at hm
            rcases List.mem_map.mp hm with ⟨r, hr, rfl⟩
            have hthr : cfg.minRelevanceScore ≤ r.2 := by
              simpa using List.of_mem_filter hr
            rcases mem_similaritySearch_characterize kb.store (embedQuery message)
              cfg.maxRetrievedDocs r (List.mem_of_mem_filter hr) with ⟨c, hc, h1, h2⟩
            have hchar : ∃ name kb2, getKnowledgeBase st name = some kb2 ∧
                ∃ c2 ∈ kb2.store,
                  ({ content := r.1, score := r.2, knowledgeBase := cur } : Match).content =
                    c2.pageContent ∧
                  ({ content := r.1, score := r.2, knowledgeBase := cur } : Match).knowledgeBase
                    = name ∧
                  ({ content := r.1, score := r.2, knowledgeBase := cur } : Match).score =
                    dotQ (embedQuery message) c2.embedding :=
              ⟨cur, kb, hkbo, c, hc, h1, rfl, h2⟩
            exact ⟨hchar, hbounds _ hchar hthr⟩
    · by_cases hmulti2 : optionsMode.getD st.mode = "multi"
      · have hdisp : processMessage cfg st embedQuery message optionsMode =
            multiSearch cfg st embedQuery message := by
          unfold processMessage
          simp only [hmulti2, hen, if_neg hmsg]
          simp
        rw [hdisp] at hok
        exact hmultiPart R (multiSearch cfg st embedQuery message).2
          (by rw [← hok]) m hm
      · unfold processMessage at hok
        simp [hsingle, hmulti2, hen, if_neg hmsg, hmsg2] at hok

/-- C2 (counterexample): the concrete SINGLE query whose query/chunk
embeddings are the unit vectors `[1, 0]` and `[3/5, 4/5]` returns the raw
cosine `3/5` as the match score, not the claimed normalization
`(1 + cos θ) / 2 = 4/5`: the two disagree. -/
theorem c2_counterexample :
    ((processMessage cfgHalf stSingle embedOne "What is an agent?" none).1 =
        Except.ok resSingle) ∧
      dotQ (embedOne "What is an agent?")
        ((kbAgent.store.headD { pageContent := "", embedding := [] }).embedding) = 3/5 ∧
      (1 + dotQ (embedOne "What is an agent?")
          ((kbAgent.store.headD { pageContent := "", embedding := [] }).embedding)) / 2
        ≠ 3/5 := by
  refine ⟨?_, by norm_num [dotQ, embedOne, kbAgent], by norm_num [dotQ, embedOne, kbAgent]⟩
  norm_num +decide [processMessage, stSingle, cfgHalf, kbAgent, embedOne, resSingle,
    jsTrim, RAGService.mkConfig, orDefaultQ, orDefaultNat, orDefaultStr, orDefaultBool,
    orNullish, getKnowledgeBase, JsMap.get, similaritySearchWithScore, sortDescBy,
    insertDescBy, dotQ, List.filter, List.dropWhile]

/-- C2 (witness): the raw-cosine theorem applied to the concrete SINGLE
query against `kbAgent` and to the concrete MULTI query over the
unit-embedding stores `m1` and `m2`. -/
theorem c2_scores_raw_cosine_witness :
    (0 ≤ cfgHalf.minRelevanceScore) ∧
      ((processMessage cfgHalf stSingle embedOne "What is an agent?" none).1 =
        Except.ok resSingle) ∧
      (∀ m ∈ resSingle.documents,
        (∃ name kb, getKnowledgeBase stSingle name = some kb ∧
          ∃ c ∈ kb.store, m.content = c.pageContent ∧ m.knowledgeBase = name ∧
            m.score = dotQ (embedOne "What is an agent?") c.embedding) ∧
        0 ≤ m.score ∧ m.score ≤ 1) ∧
      (multiSearch cfgHalf stMulti2 embedOne "What is an agent?" =
        (Except.ok resMulti2, 2)) ∧
      (∀ m ∈ resMulti2.documents,
        (∃ name kb, getKnowledgeBase stMulti2 name = some kb ∧
          ∃ c ∈ kb.store, m.content = c.pageContent ∧ m.knowledgeBase = name ∧
            m.score = dotQ (embedOne "What is an agent?") c.embedding) ∧
        0 ≤ m.score ∧ m.score ≤ 1) := by
  have hRs : (processMessage cfgHalf stSingle embedOne "What is an agent?" none).1 =
      Except.ok resSingle := by
    norm_num +decide [processMessage, stSingle, cfgHalf, kbAgent, embedOne, resSingle,
      jsTrim, RAGService.mkConfig, orDefaultQ, orDefaultNat, orDefaultStr, orDefaultBool,
      orNullish, getKnowledgeBase, JsMap.get, similaritySearchWithScore, sortDescBy,
      insertDescBy, dotQ, List.filter, List.dropWhile]
  have hRm : multiSearch cfgHalf stMulti2 embedOne "What is an agent?" =
      (Except.ok resMulti2, 2) := by
    norm_num +decide [multiSearch, multiKbResults, getMergedKnowledgeBases, stMulti2,
      cfgHalf, kbM1, kbM2, embedOne, resMulti2, RAGService.mkConfig, orDefaultQ,
      orDefaultNat, orDefaultStr, orDefaultBool, orNullish, getKnowledgeBase, JsMap.get,
      JsMap.set, JsMap.has, similaritySearchWithScore, sortDescBy, insertDescBy, dotQ,
      List.filter]
  have hunitS : ∀ e ∈ stSingle.userKnowledgeBases ++ stSingle.systemKnowledgeBases,
      ∀ c ∈ e.2.store, dotQ c.embedding c.embedding = 1 ∧
        c.embedding.length = (embedOne "What is an agent?").length := by
    intro e he c hc
    simp only [stSingle, List.append_nil, List.mem_singleton] at he
    subst he
    simp only [kbAgent, List.mem_singleton] at hc
    subst hc
    exact ⟨by norm_num [dotQ], rfl⟩
  have hunitM : ∀ e ∈ stMulti2.userKnowledgeBases ++ stMulti2.systemKnowledgeBases,
      ∀ c ∈ e.2.store, dotQ c.embedding c.embedding = 1 ∧
        c.embedding.length = (embedOne "What is an agent?").length := by
    intro e he c hc
    simp only [stMulti2, List.nil_append, List.mem_cons, List.mem_singleton,
      List.not_mem_nil, or_false] at he
    rcases he with he | he <;> subst he
    · simp only [kbM1, List.mem_singleton] at hc
      subst hc
      exact ⟨by norm_num [dotQ], rfl⟩
    · simp only [kbM2, List.mem_singleton] at hc
      subst hc
      exact ⟨by norm_num [dotQ], rfl⟩
  refine ⟨by norm_num [cfgHalf, RAGService.mkConfig, orDefaultQ], hRs, ?_, hRm, ?_⟩
  · exact (c2_scores_raw_cosine cfgHalf stSingle embedOne "What is an agent?" none
      (by norm_num [cfgHalf, RAGService.mkConfig, orDefaultQ])
      (by norm_num [dotQ, embedOne]) hunitS).1 resSingle hRs
  · exact (c2_scores_raw_cosine cfgHalf stMulti2 embedOne "What is an agent?" none
      (by norm_num [cfgHalf, RAGService.mkConfig, orDefaultQ])
      (by norm_num [dotQ, embedOne]) hunitM).2 resMulti2 2 hRm
